import Mathlib

/-!
Verification of the `useAppWebSocket` composable
(`src/web-app/app/composables/useAppWebSocket.ts`) and the header
component that consumes it, against the event-bus portion of the
specification, together with a spec-modelled module manager for the
startup rollback property.

Handlers are identified by natural numbers (each JS closure is a distinct
object; object identity is what `Set.add` / `Set.delete` compare).
A JavaScript `Set` is an insertion-ordered collection without duplicates:
we model the four listener sets as `List Nat` with `setAdd` (append if
absent, `Set.prototype.add`) and `setDelete` (`List.erase`,
`Set.prototype.delete`).
-/

/-- The four event kinds handled by the composable
(`WSHandlers` type, lines 3–8 of `useAppWebSocket.ts`). -/
inductive WSEventKind
  | connected
  | disconnected
  | error
  | message
  deriving DecidableEq, Repr

/-- An event: its kind plus an abstract payload
(`ws`/`ev` arguments are opaque to the dispatcher). -/
structure WSEvent where
  kind : WSEventKind
  payload : Nat
  deriving DecidableEq, Repr

/-- `Set.prototype.add`: appends if not already present (object identity). -/
def setAdd (s : List Nat) (h : Nat) : List Nat :=
  if h ∈ s then s else s ++ [h]

/-- `Set.prototype.delete`: removes the element if present, no-op otherwise. -/
def setDelete (s : List Nat) (h : Nat) : List Nat :=
  s.erase h

/-- The module-level `listeners` record (lines 12–17):
one insertion-ordered set of handlers per event kind. -/
structure Listeners where
  connected : List Nat
  disconnected : List Nat
  error : List Nat
  message : List Nat
  deriving DecidableEq, Repr

/-- The handler set consulted for a given event kind. -/
def Listeners.forKind (l : Listeners) : WSEventKind → List Nat
  | .connected => l.connected
  | .disconnected => l.disconnected
  | .error => l.error
  | .message => l.message

/-- Replace the handler set of one kind. -/
def Listeners.setKind (l : Listeners) : WSEventKind → List Nat → Listeners
  | .connected, s => { l with connected := s }
  | .disconnected, s => { l with disconnected := s }
  | .error, s => { l with error := s }
  | .message, s => { l with message := s }

/-- `onConnected` / `onDisconnected` / `onError` / `onMessage`
(lines 45–63): add the handler to the kind's set. -/
def addListener (l : Listeners) (k : WSEventKind) (h : Nat) : Listeners :=
  l.setKind k (setAdd (l.forKind k) h)

/-- The unsubscribe closure returned by each registration function
(e.g. `() => listeners.connected.delete(fn)`, line 47). -/
def removeListener (l : Listeners) (k : WSEventKind) (h : Nat) : Listeners :=
  l.setKind k (setDelete (l.forKind k) h)

/-- Well-formedness: a JS `Set` never holds duplicates. -/
def Listeners.Wf (l : Listeners) : Prop :=
  l.connected.Nodup ∧ l.disconnected.Nodup ∧ l.error.Nodup ∧ l.message.Nodup

/-- The empty registry (initial value of `listeners`, lines 12–17). -/
def emptyListeners : Listeners :=
  { connected := [], disconnected := [], error := [], message := [] }

/-- Dispatch of one event to non-throwing, non-mutating handlers
(`listeners.X.forEach(fn => fn(ws, ev))`, lines 24–39): the resulting
invocation trace, in the order the handlers are called. -/
def dispatchEvent (l : Listeners) (e : WSEvent) : List (Nat × WSEvent) :=
  (l.forKind e.kind).map (fun h => (h, e))

theorem forKind_setKind_same (l : Listeners) (k : WSEventKind) (s : List Nat) :
    (l.setKind k s).forKind k = s := by
  cases k <;> rfl

theorem forKind_setKind_other (l : Listeners) (k k' : WSEventKind) (s : List Nat)
    (hne : k' ≠ k) : (l.setKind k s).forKind k' = l.forKind k' := by
  cases k <;> cases k' <;> simp_all [Listeners.setKind, Listeners.forKind]

theorem forKind_addListener (l : Listeners) (k k' : WSEventKind) (h : Nat) :
    (addListener l k h).forKind k' =
      if k' = k then setAdd (l.forKind k) h else l.forKind k' := by
  by_cases hk : k' = k
  · subst hk; simp [addListener, forKind_setKind_same]
  · simp [addListener, forKind_setKind_other l k k' _ hk, hk]

theorem forKind_removeListener (l : Listeners) (k k' : WSEventKind) (h : Nat) :
    (removeListener l k h).forKind k' =
      if k' = k then setDelete (l.forKind k) h else l.forKind k' := by
  by_cases hk : k' = k
  · subst hk; simp [removeListener, forKind_setKind_same]
  · simp [removeListener, forKind_setKind_other l k k' _ hk, hk]

theorem setAdd_nodup {s : List Nat} (hs : s.Nodup) (h : Nat) :
    (setAdd s h).Nodup := by
  unfold setAdd
  by_cases hm : h ∈ s
  · simpa [hm]
  · simpa [hm] using List.nodup_append.2 ⟨hs, List.nodup_singleton h, by
      intro a ha hb
      simp at hb
      subst hb
      exact hm ha⟩

theorem setDelete_nodup {s : List Nat} (hs : s.Nodup) (h : Nat) :
    (setDelete s h).Nodup :=
  hs.erase h

theorem Listeners.ext_forKind {l₁ l₂ : Listeners}
    (h : ∀ k, l₁.forKind k = l₂.forKind k) : l₁ = l₂ := by
  cases l₁
  cases l₂
  have hc := h .connected
  have hd := h .disconnected
  have he := h .error
  have hm := h .message
  simp [Listeners.forKind] at hc hd he hm
  simp [hc, hd, he, hm]

theorem Listeners.Wf.forKind {l : Listeners} (hw : l.Wf) (k : WSEventKind) :
    (l.forKind k).Nodup := by
  cases k <;> simp [Listeners.forKind]
  · exact hw.1
  · exact hw.2.1
  · exact hw.2.2.1
  · exact hw.2.2.2

theorem setDelete_idem {s : List Nat} (hs : s.Nodup) (h : Nat) :
    setDelete (setDelete s h) h = setDelete s h :=
  List.erase_of_not_mem hs.not_mem_erase

theorem mem_setAdd_self (s : List Nat) (h : Nat) : h ∈ setAdd s h := by
  unfold setAdd
  by_cases hm : h ∈ s <;> simp [hm]

theorem not_mem_setDelete_setAdd {s : List Nat} (hs : s.Nodup) (h : Nat) :
    h ∉ setDelete (setAdd s h) h :=
  (setAdd_nodup hs h).not_mem_erase

theorem count_dispatchEvent (l : Listeners) (e : WSEvent) (h : Nat) :
    (dispatchEvent l e).count (h, e) = (l.forKind e.kind).count h := by
  unfold dispatchEvent
  induction l.forKind e.kind with
  | nil => rfl
  | cons a t ih =>
    by_cases ha : a = h
    · subst ha
      simp [List.count_cons, ih]
    · simp [List.count_cons, ih, ha, Prod.ext_iff]

theorem setAdd_of_mem {s : List Nat} {h : Nat} (hm : h ∈ s) : setAdd s h = s :=
  if_pos hm

theorem setAdd_idem (s : List Nat) (h : Nat) :
    setAdd (setAdd s h) h = setAdd s h :=
  setAdd_of_mem (mem_setAdd_self s h)

theorem setDelete_setAdd_of_not_mem {s : List Nat} {h : Nat} (hm : h ∉ s) :
    setDelete (setAdd s h) h = s := by
  rw [setAdd, if_neg hm, setDelete, List.erase_append_right _ hm]
  simp

/-- Claim C2: unsubscribing is idempotent — for a well-formed registry,
calling the unsubscribe closure returned by a registration function twice
leaves the listener registry in the same state as calling it once
(the second `Set.delete` finds nothing and is a no-op). -/
theorem unsubscribe_idempotent (l : Listeners) (k : WSEventKind) (h : Nat)
    (hw : l.Wf) :
    removeListener (removeListener l k h) k h = removeListener l k h := by
  apply Listeners.ext_forKind
  intro k'
  rw [forKind_removeListener, forKind_removeListener, forKind_removeListener]
  by_cases hk : k' = k
  · simp [hk, setDelete_idem (hw.forKind k)]
  · simp [hk]

/-- Witness for C2 at a concrete registry. -/
theorem unsubscribe_idempotent_witness :
    (Listeners.mk [5] [] [] []).Wf ∧
      removeListener (removeListener (Listeners.mk [5] [] [] []) .connected 5)
          .connected 5 =
        removeListener (Listeners.mk [5] [] [] []) .connected 5 :=
  ⟨by constructor <;> simp,
    unsubscribe_idempotent (Listeners.mk [5] [] [] []) .connected 5
      (by constructor <;> simp)⟩

/-- Claim C6: for every event dispatched, each currently-subscribed handler
of that event's kind is invoked exactly once with that event — the
`forEach` over the kind's `Set` calls every member once, never zero times
and never twice. -/
theorem dispatch_invokes_subscribed_once (l : Listeners) (e : WSEvent) (h : Nat)
    (hw : l.Wf) (hmem : h ∈ l.forKind e.kind) :
    (dispatchEvent l e).count (h, e) = 1 := by
  rw [count_dispatchEvent]
  exact List.count_eq_one_of_mem (hw.forKind e.kind) hmem

/-- Witness for C6: handler 7 subscribed to `message` is invoked exactly
once by a `message` dispatch. -/
theorem dispatch_invokes_subscribed_once_witness :
    (Listeners.mk [] [] [] [3, 7]).Wf ∧
      7 ∈ (Listeners.mk [] [] [] [3, 7]).forKind .message ∧
      (dispatchEvent (Listeners.mk [] [] [] [3, 7]) ⟨.message, 0⟩).count
          (7, ⟨.message, 0⟩) = 1 :=
  ⟨by constructor <;> simp [Listeners.forKind], by simp [Listeners.forKind],
    dispatch_invokes_subscribed_once (Listeners.mk [] [] [] [3, 7])
      ⟨.message, 0⟩ 7 (by constructor <;> simp [Listeners.forKind])
      (by simp [Listeners.forKind])⟩

/-- Claim C7: subscribe-then-unsubscribe is a round trip — for a handler
not already registered anywhere, registering it and then calling the
returned unsubscribe closure restores the registry to its prior state, and
the handler is not invoked for any event dispatched afterwards. -/
theorem subscribe_unsubscribe_roundtrip (l : Listeners) (k : WSEventKind)
    (h : Nat) (hfresh : ∀ k', h ∉ l.forKind k') :
    removeListener (addListener l k h) k h = l ∧
      ∀ e, (h, e) ∉ dispatchEvent (removeListener (addListener l k h) k h) e := by
  have hrt : removeListener (addListener l k h) k h = l := by
    apply Listeners.ext_forKind
    intro k'
    rw [forKind_removeListener]
    by_cases hk : k' = k
    · simp [hk, forKind_addListener, setDelete_setAdd_of_not_mem (hfresh k)]
    · simp [hk, forKind_addListener]
  refine ⟨hrt, fun e hmem => ?_⟩
  rw [hrt] at hmem
  rcases List.mem_map.1 hmem with ⟨a, ha, hae⟩
  have : a = h := congrArg Prod.fst hae
  subst this
  exact hfresh e.kind ha

/-- Witness for C7: registering handler 7 for `message` on the empty
registry and unsubscribing restores the empty registry. -/
theorem subscribe_unsubscribe_roundtrip_witness :
    (∀ k', (7 : Nat) ∉ emptyListeners.forKind k') ∧
      (removeListener (addListener emptyListeners .message 7) .message 7 =
          emptyListeners ∧
        ∀ e, (7, e) ∉
          dispatchEvent
            (removeListener (addListener emptyListeners .message 7) .message 7)
            e) :=
  ⟨by intro k'; cases k' <;> simp [Listeners.forKind, emptyListeners],
    subscribe_unsubscribe_roundtrip emptyListeners .message 7
      (by intro k'; cases k' <;> simp [Listeners.forKind, emptyListeners])⟩

/-- Claim C10: registering the identical handler (same closure object)
twice for the same kind equals registering it once (`Set.add` of a present
member is a no-op); the handler is still invoked once per matching event;
and the unsubscribe closure (both registrations return one performing the
same `Set.delete`) removes the registration entirely. -/
theorem duplicate_registration_noop (l : Listeners) (k : WSEventKind) (h : Nat)
    (hw : l.Wf) :
    addListener (addListener l k h) k h = addListener l k h ∧
      (∀ e : WSEvent, e.kind = k →
        (dispatchEvent (addListener (addListener l k h) k h) e).count (h, e)
          = 1) ∧
      h ∉ (removeListener (addListener (addListener l k h) k h) k h).forKind k := by
  have hidem : addListener (addListener l k h) k h = addListener l k h := by
    apply Listeners.ext_forKind
    intro k'
    by_cases hk : k' = k
    · simp [hk, forKind_addListener, setAdd_idem]
    · simp [hk, forKind_addListener]
  refine ⟨hidem, fun e he => ?_, ?_⟩
  · rw [hidem, count_dispatchEvent, forKind_addListener, he, if_pos rfl]
    exact List.count_eq_one_of_mem (setAdd_nodup (hw.forKind k) h)
      (mem_setAdd_self _ h)
  · rw [hidem, forKind_removeListener, if_pos rfl, forKind_addListener,
      if_pos rfl]
    exact not_mem_setDelete_setAdd (hw.forKind k) h

/-- Witness for C10: double registration of handler 4 for `error` on the
empty registry. -/
theorem duplicate_registration_noop_witness :
    emptyListeners.Wf ∧
      (addListener (addListener emptyListeners .error 4) .error 4 =
          addListener emptyListeners .error 4 ∧
        (∀ e : WSEvent, e.kind = .error →
          (dispatchEvent
              (addListener (addListener emptyListeners .error 4) .error 4)
              e).count (4, e) = 1) ∧
        4 ∉ (removeListener
            (addListener (addListener emptyListeners .error 4) .error 4)
            .error 4).forKind .error) :=
  ⟨by constructor <;> simp [emptyListeners],
    duplicate_registration_noop emptyListeners .error 4
      (by constructor <;> simp [emptyListeners])⟩

/-- Trace of dispatching a list of accepted events in order, each
invocation tagged with the index (from `n`) of the event that caused it;
within one event, handlers run in insertion order (the `forEach`). -/
def eventTraceFrom (l : Listeners) : Nat → List WSEvent → List (Nat × Nat)
  | _, [] => []
  | n, e :: rest =>
    (l.forKind e.kind).map (fun h => (n, h)) ++ eventTraceFrom l (n + 1) rest

/-- Trace of a whole accepted-event sequence, indices from 0. -/
def eventTrace (l : Listeners) (events : List WSEvent) : List (Nat × Nat) :=
  eventTraceFrom l 0 events

theorem eventTraceFrom_le (l : Listeners) (evs : List WSEvent) (n : Nat) :
    ∀ x ∈ eventTraceFrom l n evs, n ≤ x.1 := by
  induction evs generalizing n with
  | nil => intro x hx; simp [eventTraceFrom] at hx
  | cons e rest ih =>
    intro x hx
    rw [eventTraceFrom, List.mem_append] at hx
    rcases hx with hx | hx
    · rcases List.mem_map.1 hx with ⟨a, _, rfl⟩
      exact le_refl n
    · exact Nat.le_of_succ_le (ih (n + 1) x hx)

theorem eventTraceFrom_pairwise (l : Listeners) (evs : List WSEvent) (n : Nat) :
    (eventTraceFrom l n evs).Pairwise (fun a b => a.1 ≤ b.1) := by
  induction evs generalizing n with
  | nil => exact List.Pairwise.nil
  | cons e rest ih =>
    rw [eventTraceFrom, List.pairwise_append]
    refine ⟨?_, ih (n + 1), ?_⟩
    · rw [List.pairwise_map]
      exact List.pairwise_of_forall (fun _ _ => le_refl n)
    · intro a ha b hb
      rcases List.mem_map.1 ha with ⟨x, _, rfl⟩
      exact Nat.le_of_succ_le (eventTraceFrom_le l rest (n + 1) b hb)

/-- Claim C3: per-acceptance-order delivery — if the same handler appears
in the trace once for event index `i` and once for event index `j` with
`i < j`, then its invocation for `i` occurs strictly earlier in the trace:
every listener observes events in the order they were accepted. -/
theorem dispatch_order_preserved (l : Listeners) (events : List WSEvent)
    (h i j : Nat) (p q : Fin (eventTrace l events).length)
    (hp : (eventTrace l events).get p = (i, h))
    (hq : (eventTrace l events).get q = (j, h))
    (hij : i < j) : p < q := by
  have hpw : (eventTrace l events).Pairwise (fun a b => a.1 ≤ b.1) :=
    eventTraceFrom_pairwise l events 0
  rcases Nat.lt_trichotomy p q with hlt | heq | hgt
  · exact hlt
  · exfalso
    have hpq : (eventTrace l events).get p = (eventTrace l events).get q :=
      congrArg _ (Fin.ext heq)
    rw [hp, hq] at hpq
    have : i = j := congrArg Prod.fst hpq
    omega
  · exfalso
    have hpair := (List.pairwise_iff_get.1 hpw) q p hgt
    rw [hp, hq] at hpair
    exact Nat.not_le_of_lt hij hpair

/-- Witness for C3: with handler 2 subscribed to both `connected` and
`message`, a `connected` event accepted before a `message` event is
observed first. -/
theorem dispatch_order_preserved_witness :
    (eventTrace (Listeners.mk [2] [] [] [2]) [⟨.connected, 0⟩, ⟨.message, 1⟩]).get
        ⟨0, by simp [eventTrace, eventTraceFrom, Listeners.forKind]⟩ = (0, 2) ∧
      (eventTrace (Listeners.mk [2] [] [] [2]) [⟨.connected, 0⟩, ⟨.message, 1⟩]).get
        ⟨1, by simp [eventTrace, eventTraceFrom, Listeners.forKind]⟩ = (1, 2) ∧
      (⟨0, by simp [eventTrace, eventTraceFrom, Listeners.forKind]⟩ :
          Fin (eventTrace (Listeners.mk [2] [] [] [2])
            [⟨.connected, 0⟩, ⟨.message, 1⟩]).length) <
        ⟨1, by simp [eventTrace, eventTraceFrom, Listeners.forKind]⟩ :=
  ⟨by simp [eventTrace, eventTraceFrom, Listeners.forKind],
    by simp [eventTrace, eventTraceFrom, Listeners.forKind],
    dispatch_order_preserved (Listeners.mk [2] [] [] [2])
      [⟨.connected, 0⟩, ⟨.message, 1⟩] 2 0 1 _ _
      (by simp [eventTrace, eventTraceFrom, Listeners.forKind])
      (by simp [eventTrace, eventTraceFrom, Listeners.forKind])
      (by decide)⟩

/-- Dispatch of one event when handlers may throw (`raises h = true`
means handler `h` throws when invoked). `Set.forEach` calls handlers in
insertion order and an uncaught exception propagates out of `forEach`
(the source has no try/catch around `fn(ws, ev)`, lines 24–39), so the
walk stops at the first throwing handler. Returns the list of handlers
actually invoked and the throwing handler, if any. -/
def dispatchExc (raises : Nat → Bool) : List Nat → List Nat × Option Nat
  | [] => ([], none)
  | h :: t =>
    if raises h then ([h], some h)
    else (h :: (dispatchExc raises t).1, (dispatchExc raises t).2)

/-- One event fired at the registry with possibly-throwing handlers. -/
def dispatchEventExc (l : Listeners) (raises : Nat → Bool) (e : WSEvent) :
    List Nat × Option Nat :=
  dispatchExc raises (l.forKind e.kind)

theorem dispatchExc_no_raise (raises : Nat → Bool) (s : List Nat)
    (h : ∀ x ∈ s, raises x = false) : dispatchExc raises s = (s, none) := by
  induction s with
  | nil => rfl
  | cons a t ih =>
    have ha : raises a = false := h a (List.mem_cons_self a t)
    rw [dispatchExc, if_neg (by simp [ha]),
      ih (fun x hx => h x (List.mem_cons_of_mem a hx))]

theorem dispatchExc_throw (raises : Nat → Bool) (s : List Nat) (r : Nat)
    (h : (dispatchExc raises s).2 = some r) :
    ∃ pre suf, s = pre ++ r :: suf ∧ raises r = true ∧
      (∀ x ∈ pre, raises x = false) ∧
      (dispatchExc raises s).1 = pre ++ [r] := by
  induction s with
  | nil => simp [dispatchExc] at h
  | cons a t ih =>
    by_cases ha : raises a
    · rw [dispatchExc, if_pos ha] at h
      obtain rfl : a = r := by simpa using h
      exact ⟨[], t, by simp, ha, by simp, by rw [dispatchExc, if_pos ha]; simp⟩
    · rw [dispatchExc, if_neg ha] at h
      obtain ⟨pre, suf, h1, h2, h3, h4⟩ := ih h
      refine ⟨a :: pre, suf, by simp [h1], h2, ?_, ?_⟩
      · intro x hx
        rcases List.mem_cons.1 hx with rfl | hx
        · exact Bool.of_not_eq_true ha
        · exact h3 x hx
      · rw [dispatchExc, if_neg ha]
        simp [h4]

/-- Counterexample to claim C1 as stated: with handlers 0 and 1 subscribed
to `message` in that order and handler 0 throwing, handler 1 — a remaining
listener for the event — is not invoked, because the `forEach` in
`onMessage` has no try/catch and the exception aborts the iteration. -/
theorem handler_exception_counterexample :
    (fun h => h == 0) 0 = true ∧
      1 ∈ (Listeners.mk [] [] [] [0, 1]).forKind .message ∧
      1 ∉ (dispatchEventExc (Listeners.mk [] [] [] [0, 1]) (fun h => h == 0)
          ⟨.message, 0⟩).1 := by
  refine ⟨rfl, by simp [Listeners.forKind], ?_⟩
  simp [dispatchEventExc, dispatchExc, Listeners.forKind]

/-- Claim C1 (amended): when a handler throws during delivery of event E,
the handlers registered before it (in insertion order) are invoked, the
throwing handler itself is invoked, and the handlers after it are not —
the uncaught exception aborts delivery of E. The throw leaves the registry
untouched, so delivery of any later event whose handlers do not throw
still reaches every listener of that event. -/
theorem handler_exception_aborts_delivery (l : Listeners) (raises : Nat → Bool)
    (e : WSEvent) (r : Nat)
    (hthrow : (dispatchEventExc l raises e).2 = some r) :
    (∃ pre suf, l.forKind e.kind = pre ++ r :: suf ∧ raises r = true ∧
      (∀ x ∈ pre, raises x = false) ∧
      (dispatchEventExc l raises e).1 = pre ++ [r]) ∧
    ∀ e' : WSEvent, (∀ x ∈ l.forKind e'.kind, raises x = false) →
      (dispatchEventExc l raises e').1 = l.forKind e'.kind := by
  refine ⟨dispatchExc_throw raises (l.forKind e.kind) r hthrow, ?_⟩
  intro e' he'
  rw [dispatchEventExc, dispatchExc_no_raise raises _ he']

/-- Witness for the amended C1: handler 0 throws on `message`; the later
`connected` event (whose only handler 2 does not throw) is still fully
delivered. -/
theorem handler_exception_aborts_delivery_witness :
    (dispatchEventExc (Listeners.mk [2] [] [] [0, 1]) (fun h => h == 0)
        ⟨.message, 0⟩).2 = some 0 ∧
      ((∃ pre suf,
          (Listeners.mk [2] [] [] [0, 1]).forKind (WSEvent.mk .message 0).kind =
            pre ++ 0 :: suf ∧
          (fun h => h == 0) 0 = true ∧
          (∀ x ∈ pre, (fun h => h == 0) x = false) ∧
          (dispatchEventExc (Listeners.mk [2] [] [] [0, 1]) (fun h => h == 0)
              ⟨.message, 0⟩).1 = pre ++ [0]) ∧
        ∀ e' : WSEvent,
          (∀ x ∈ (Listeners.mk [2] [] [] [0, 1]).forKind e'.kind,
            (fun h => h == 0) x = false) →
          (dispatchEventExc (Listeners.mk [2] [] [] [0, 1]) (fun h => h == 0)
              e').1 =
            (Listeners.mk [2] [] [] [0, 1]).forKind e'.kind) :=
  ⟨by simp [dispatchEventExc, dispatchExc, Listeners.forKind],
    handler_exception_aborts_delivery (Listeners.mk [2] [] [] [0, 1])
      (fun h => h == 0) ⟨.message, 0⟩ 0
      (by simp [dispatchEventExc, dispatchExc, Listeners.forKind])⟩

/-- The module-level mutable state of `useAppWebSocket.ts`: the lazily
constructed socket (`let socket = null`, line 10) and the shared listener
registry. `constructions` counts invocations of `useWebSocket(...)`. -/
structure AppState where
  socketConstructed : Bool
  constructions : Nat
  listeners : Listeners
  deriving DecidableEq, Repr

/-- Module load state: `socket` is null, all listener sets empty. -/
def initAppState : AppState :=
  { socketConstructed := false, constructions := 0,
    listeners := emptyListeners }

/-- `useAppWebSocket()` (lines 19–41): constructs the socket only when
`socket` is still null, otherwise reuses it; the call itself never touches
the `listeners` record, and the handles it returns operate on that single
module-level record. -/
def useAppWebSocket (s : AppState) : AppState :=
  if s.socketConstructed then s
  else { s with socketConstructed := true,
                constructions := s.constructions + 1 }

/-- Claim C9: `useAppWebSocket` is a process-wide singleton — across any
number of calls the underlying socket is constructed exactly once (on the
first call, never after), and the shared listener registry is the single
module-level one, untouched by the calls themselves. -/
theorem useAppWebSocket_singleton (n : Nat) :
    (useAppWebSocket^[n] initAppState).constructions = min n 1 ∧
      (useAppWebSocket^[n] initAppState).socketConstructed = decide (1 ≤ n) ∧
      (useAppWebSocket^[n] initAppState).listeners = initAppState.listeners := by
  induction n with
  | zero => simp [initAppState]
  | succ m ih =>
    rw [Function.iterate_succ_apply']
    obtain ⟨ih1, ih2, ih3⟩ := ih
    cases m with
    | zero =>
      simp [useAppWebSocket, initAppState]
    | succ m' =>
      have hcon : (useAppWebSocket^[m' + 1] initAppState).socketConstructed
          = true := by
        rw [ih2]
        simp
      have hstep : useAppWebSocket (useAppWebSocket^[m' + 1] initAppState)
          = useAppWebSocket^[m' + 1] initAppState := by
        rw [useAppWebSocket, if_pos hcon]
      rw [hstep, ih1, ih2, ih3]
      refine ⟨?_, by simp, rfl⟩
      simp [Nat.min_def]

/-- Registry mutations available to components: registering a handler for
a kind or calling a returned unsubscribe closure. -/
inductive RegOp
  | subscribeOp (k : WSEventKind) (h : Nat)
  | unsubscribeOp (k : WSEventKind) (h : Nat)
  deriving DecidableEq, Repr

/-- Apply one mutation to the registry. -/
def applyOp (l : Listeners) : RegOp → Listeners
  | .subscribeOp k h => addListener l k h
  | .unsubscribeOp k h => removeListener l k h

/-- Apply a sequence of mutations in order. -/
def applyOps (l : Listeners) (ops : List RegOp) : Listeners :=
  ops.foldl applyOp l

/-- Setup of the header component (`src/unnamed/part_000`, lines 7–15):
it registers `h1` via `ws.onConnected` and `h2` via `ws.onDisconnected`. -/
def headerSetup (l : Listeners) (h1 h2 : Nat) : Listeners :=
  addListener (addListener l .connected h1) .disconnected h2

/-- The component's `onUnmounted` callback (lines 21–24): it calls the two
unsubscribe closures returned at setup. -/
def headerUnmount (l : Listeners) (h1 h2 : Nat) : Listeners :=
  removeListener (removeListener l .connected h1) .disconnected h2

/-- An op does not register handler `h`. -/
def RegOp.notAdds (h : Nat) : RegOp → Prop
  | .subscribeOp _ x => x ≠ h
  | .unsubscribeOp _ _ => True

/-- Handler `h` appears in no set except possibly the one for `k0`. -/
def onlyIn (l : Listeners) (h : Nat) (k0 : WSEventKind) : Prop :=
  ∀ k, k ≠ k0 → h ∉ l.forKind k

theorem not_mem_setAdd {s : List Nat} {x h : Nat} (hx : x ∉ s) (hne : x ≠ h) :
    x ∉ setAdd s h := by
  unfold setAdd
  by_cases hm : h ∈ s <;> simp [hm, hx, hne]

theorem not_mem_setDelete {s : List Nat} {x h : Nat} (hx : x ∉ s) :
    x ∉ setDelete s h :=
  fun hmem => hx (List.mem_of_mem_erase hmem)

theorem addListener_wf {l : Listeners} (hw : l.Wf) (k : WSEventKind) (h : Nat) :
    (addListener l k h).Wf := by
  obtain ⟨w1, w2, w3, w4⟩ := hw
  cases k <;>
    exact ⟨by first | exact setAdd_nodup w1 h | exact w1,
           by first | exact setAdd_nodup w2 h | exact w2,
           by first | exact setAdd_nodup w3 h | exact w3,
           by first | exact setAdd_nodup w4 h | exact w4⟩

theorem removeListener_wf {l : Listeners} (hw : l.Wf) (k : WSEventKind)
    (h : Nat) : (removeListener l k h).Wf := by
  obtain ⟨w1, w2, w3, w4⟩ := hw
  cases k <;>
    exact ⟨by first | exact setDelete_nodup w1 h | exact w1,
           by first | exact setDelete_nodup w2 h | exact w2,
           by first | exact setDelete_nodup w3 h | exact w3,
           by first | exact setDelete_nodup w4 h | exact w4⟩

theorem applyOp_wf {l : Listeners} (hw : l.Wf) (op : RegOp) :
    (applyOp l op).Wf := by
  cases op with
  | subscribeOp k h => exact addListener_wf hw k h
  | unsubscribeOp k h => exact removeListener_wf hw k h

theorem applyOps_wf {l : Listeners} (hw : l.Wf) (ops : List RegOp) :
    (applyOps l ops).Wf := by
  induction ops generalizing l with
  | nil => exact hw
  | cons op rest ih => exact ih (applyOp_wf hw op)

theorem onlyIn_applyOp {l : Listeners} {h : Nat} {k0 : WSEventKind}
    (ho : onlyIn l h k0) {op : RegOp} (hop : op.notAdds h) :
    onlyIn (applyOp l op) h k0 := by
  cases op with
  | subscribeOp k x =>
    intro k' hk'
    rw [applyOp, forKind_addListener]
    by_cases hkk : k' = k
    · simp only [hkk, if_pos rfl]
      exact not_mem_setAdd (ho k' hk' |>.imp (by rw [hkk]; exact id))
        (fun hhx => hop hhx.symm)
    · simpa [hkk] using ho k' hk'
  | unsubscribeOp k x =>
    intro k' hk'
    rw [applyOp, forKind_removeListener]
    by_cases hkk : k' = k
    · simp only [hkk, if_pos rfl]
      exact not_mem_setDelete (by simpa [hkk] using ho k' hk')
    · simpa [hkk] using ho k' hk'

theorem onlyIn_applyOps {l : Listeners} {h : Nat} {k0 : WSEventKind}
    (ho : onlyIn l h k0) {ops : List RegOp}
    (hops : ∀ op ∈ ops, op.notAdds h) : onlyIn (applyOps l ops) h k0 := by
  induction ops generalizing l with
  | nil => exact ho
  | cons op rest ih =>
    exact ih (onlyIn_applyOp ho (hops op (List.mem_cons_self op rest)))
      (fun o hmem => hops o (List.mem_cons_of_mem op hmem))

theorem not_mem_dispatchEvent {l : Listeners} {h : Nat} {e : WSEvent}
    (hmem : h ∉ l.forKind e.kind) : (h, e) ∉ dispatchEvent l e := by
  intro hx
  rcases List.mem_map.1 hx with ⟨a, ha, hae⟩
  have hah : a = h := congrArg Prod.fst hae
  subst hah
  exact hmem ha

/-- Claim C4: once the header component is unmounted, its two
subscriptions are removed and neither of its handlers is invoked for any
event dispatched afterwards. `l0` is the registry before the component
mounts (its fresh closures `h1`, `h2` appear nowhere), `ops` is any other
registry activity between mount and unmount that never registers those
closures (other components use their own), and the conclusion holds in
the registry left after the `onUnmounted` callback runs. -/
theorem unmount_removes_subscriptions (l0 : Listeners) (h1 h2 : Nat)
    (ops : List RegOp) (hw : l0.Wf) (hne : h1 ≠ h2)
    (h1f : ∀ k, h1 ∉ l0.forKind k) (h2f : ∀ k, h2 ∉ l0.forKind k)
    (hops : ∀ op ∈ ops, op.notAdds h1 ∧ op.notAdds h2) :
    (∀ k, h1 ∉ (headerUnmount (applyOps (headerSetup l0 h1 h2) ops) h1 h2).forKind k ∧
      h2 ∉ (headerUnmount (applyOps (headerSetup l0 h1 h2) ops) h1 h2).forKind k) ∧
    ∀ e : WSEvent,
      (h1, e) ∉ dispatchEvent
        (headerUnmount (applyOps (headerSetup l0 h1 h2) ops) h1 h2) e ∧
      (h2, e) ∉ dispatchEvent
        (headerUnmount (applyOps (headerSetup l0 h1 h2) ops) h1 h2) e := by
  have hsw : (headerSetup l0 h1 h2).Wf :=
    addListener_wf (addListener_wf hw .connected h1) .disconnected h2
  have hs1 : onlyIn (headerSetup l0 h1 h2) h1 .connected := by
    intro k hk
    rw [headerSetup, forKind_addListener]
    by_cases hkd : k = WSEventKind.disconnected
    · rw [if_pos hkd]
      subst hkd
      rw [forKind_addListener, if_neg (by simp)]
      exact not_mem_setAdd (h1f _) hne
    · rw [if_neg hkd, forKind_addListener, if_neg hk]
      exact h1f k
  have hs2 : onlyIn (headerSetup l0 h1 h2) h2 .disconnected := by
    intro k hk
    rw [headerSetup, forKind_addListener, if_neg hk]
    rw [forKind_addListener]
    by_cases hkc : k = WSEventKind.connected
    · rw [if_pos hkc]
      exact not_mem_setAdd (h2f _) (Ne.symm hne)
    · rw [if_neg hkc]
      exact h2f k
  set lm := applyOps (headerSetup l0 h1 h2) ops with hlm
  have hmw : lm.Wf := applyOps_wf hsw ops
  have hm1 : onlyIn lm h1 .connected :=
    onlyIn_applyOps hs1 (fun op hmem => (hops op hmem).1)
  have hm2 : onlyIn lm h2 .disconnected :=
    onlyIn_applyOps hs2 (fun op hmem => (hops op hmem).2)
  have hnot : ∀ k, h1 ∉ (headerUnmount lm h1 h2).forKind k ∧
      h2 ∉ (headerUnmount lm h1 h2).forKind k := by
    intro k
    rw [headerUnmount, forKind_removeListener]
    by_cases hkd : k = WSEventKind.disconnected
    · rw [if_pos hkd]
      subst hkd
      rw [forKind_removeListener, if_neg (by simp)]
      constructor
      · exact not_mem_setDelete (hm1 _ (by simp))
      · exact (hmw.forKind .disconnected).not_mem_erase
    · rw [if_neg hkd, forKind_removeListener]
      by_cases hkc : k = WSEventKind.connected
      · rw [if_pos hkc]
        subst hkc
        constructor
        · exact (hmw.forKind .connected).not_mem_erase
        · exact not_mem_setDelete (hm2 _ (by simp))
      · rw [if_neg hkc]
        exact ⟨hm1 k hkc, hm2 k hkd⟩
  exact ⟨hnot, fun e =>
    ⟨not_mem_dispatchEvent (hnot e.kind).1, not_mem_dispatchEvent (hnot e.kind).2⟩⟩

/-- Witness for C4: handlers 1 and 2 on the empty registry, with another
component registering handler 3 for `message` in between. -/
theorem unmount_removes_subscriptions_witness :
    (1 : Nat) ≠ 2 ∧
      ((∀ k, 1 ∉ (headerUnmount
            (applyOps (headerSetup emptyListeners 1 2)
              [RegOp.subscribeOp .message 3]) 1 2).forKind k ∧
          2 ∉ (headerUnmount
            (applyOps (headerSetup emptyListeners 1 2)
              [RegOp.subscribeOp .message 3]) 1 2).forKind k) ∧
        ∀ e : WSEvent,
          (1, e) ∉ dispatchEvent
            (headerUnmount
              (applyOps (headerSetup emptyListeners 1 2)
                [RegOp.subscribeOp .message 3]) 1 2) e ∧
          (2, e) ∉ dispatchEvent
            (headerUnmount
              (applyOps (headerSetup emptyListeners 1 2)
                [RegOp.subscribeOp .message 3]) 1 2) e) :=
  ⟨by decide,
    unmount_removes_subscriptions emptyListeners 1 2
      [RegOp.subscribeOp .message 3]
      (by refine ⟨?_, ?_, ?_, ?_⟩ <;> simp [emptyListeners])
      (by decide)
      (by intro k; cases k <;> simp [Listeners.forKind, emptyListeners])
      (by intro k; cases k <;> simp [Listeners.forKind, emptyListeners])
      (by
        intro op hop
        rw [List.mem_singleton] at hop
        subst hop
        exact ⟨by simp [RegOp.notAdds], by simp [RegOp.notAdds]⟩)⟩

/-- ECMAScript `Set` entry list as seen by an in-progress `forEach`:
deleting a value empties its slot (later positions are unchanged). -/
def entriesDelete (entries : List (Option Nat)) (h : Nat) : List (Option Nat) :=
  entries.map (fun y => if y = some h then none else y)

/-- Adding a value appends it when no occupied slot already holds it. -/
def entriesAdd (entries : List (Option Nat)) (h : Nat) : List (Option Nat) :=
  if some h ∈ entries then entries else entries ++ [some h]

/-- A mutation a handler may perform, mid-dispatch, on the very set being
iterated: re-registering a handler for this kind, or unsubscribing one. -/
inductive SetOp
  | addOp (h : Nat)
  | deleteOp (h : Nat)
  deriving DecidableEq, Repr

/-- Apply a handler's mutations to the live entry list. -/
def runSetOps : List SetOp → List (Option Nat) → List (Option Nat)
  | [], entries => entries
  | .addOp h :: rest, entries => runSetOps rest (entriesAdd entries h)
  | .deleteOp h :: rest, entries => runSetOps rest (entriesDelete entries h)

/-- `Set.prototype.forEach` under mutation (ECMA-262 SetForEach): walk the
entry list by index, skipping emptied slots and visiting entries appended
during the walk; `effects hnd` is the list of mutations handler `hnd`
performs when invoked. `fuel` bounds the walk (handlers that keep deleting
and re-adding one another can prolong it without bound); the `Bool`
reports whether the walk reached the end of the entry list. -/
def forEachLoop (effects : Nat → List SetOp) :
    Nat → Nat → List (Option Nat) → List Nat × Bool
  | 0, _, _ => ([], false)
  | fuel + 1, i, entries =>
    if i < entries.length then
      match entries.getD i none with
      | none => forEachLoop effects fuel (i + 1) entries
      | some hnd =>
        (hnd ::
          (forEachLoop effects fuel (i + 1) (runSetOps (effects hnd) entries)).1,
          (forEachLoop effects fuel (i + 1) (runSetOps (effects hnd) entries)).2)
    else ([], true)

/-- One event's delivery over the handler set `s` with mutating handlers. -/
def forEachMut (effects : Nat → List SetOp) (fuel : Nat) (s : List Nat) :
    List Nat × Bool :=
  forEachLoop effects fuel 0 (s.map some)

theorem forEachLoop_stop (effects : Nat → List SetOp) (f i : Nat)
    (entries : List (Option Nat)) (hge : ¬i < entries.length) :
    forEachLoop effects (f + 1) i entries = ([], true) := by
  rw [forEachLoop, if_neg hge]

theorem forEachLoop_skip (effects : Nat → List SetOp) (f i : Nat)
    (entries : List (Option Nat)) (hlt : i < entries.length)
    (hget : entries.getD i none = none) :
    forEachLoop effects (f + 1) i entries =
      forEachLoop effects f (i + 1) entries := by
  rw [forEachLoop, if_pos hlt, hget]

theorem forEachLoop_visit (effects : Nat → List SetOp) (f i : Nat)
    (entries : List (Option Nat)) (x : Nat) (hlt : i < entries.length)
    (hget : entries.getD i none = some x) :
    forEachLoop effects (f + 1) i entries =
      (x :: (forEachLoop effects f (i + 1)
          (runSetOps (effects x) entries)).1,
        (forEachLoop effects f (i + 1)
          (runSetOps (effects x) entries)).2) := by
  rw [forEachLoop, if_pos hlt, hget]

theorem count_map_delete_le (x h : Nat) (l : List (Option Nat)) :
    (l.map (fun y => if y = some x then none else y)).count (some h)
      ≤ l.count (some h) := by
  induction l with
  | nil => simp
  | cons a t ih =>
    rw [List.map_cons, List.count_cons, List.count_cons]
    by_cases hax : a = some x
    · rw [if_pos hax]
      have hnone : ((none : Option Nat) == some h) = false := rfl
      rw [hnone]
      simp only [if_neg Bool.false_ne_true]
      omega
    · rw [if_neg hax]
      omega

theorem count_drop_entriesDelete_le (x h : Nat) (entries : List (Option Nat))
    (i : Nat) :
    ((entriesDelete entries x).drop i).count (some h)
      ≤ ((entries.drop i).count (some h)) := by
  rw [entriesDelete, ← List.map_drop]
  exact count_map_delete_le x h (entries.drop i)

theorem count_drop_entriesAdd_le (x h : Nat) (hne : x ≠ h)
    (entries : List (Option Nat)) (i : Nat) :
    ((entriesAdd entries x).drop i).count (some h)
      ≤ ((entries.drop i).count (some h)) := by
  rw [entriesAdd]
  by_cases hm : some x ∈ entries
  · rw [if_pos hm]
  · rw [if_neg hm, List.drop_append_eq_append_drop, List.count_append]
    have hsub : List.drop (i - entries.length) [some x] = [some x] ∨
        List.drop (i - entries.length) [some x] = [] := by
      cases hi : i - entries.length with
      | zero => exact Or.inl rfl
      | succ n => exact Or.inr (by simp)
    have hz : ((List.drop (i - entries.length) [some x]).count
        ((some h : Option Nat))) = 0 := by
      rcases hsub with hsub | hsub
      · rw [hsub]
        simp [List.count_cons, hne]
      · rw [hsub]
        simp
    omega

theorem count_drop_runSetOps_le (h : Nat) (ops : List SetOp)
    (hops : SetOp.addOp h ∉ ops) (entries : List (Option Nat)) (i : Nat) :
    ((runSetOps ops entries).drop i).count (some h)
      ≤ ((entries.drop i).count (some h)) := by
  induction ops generalizing entries with
  | nil => exact Nat.le_refl _
  | cons op rest ih =>
    have hrest : SetOp.addOp h ∉ rest :=
      fun hmem => hops (List.mem_cons_of_mem op hmem)
    cases op with
    | addOp x =>
      have hxh : x ≠ h := by
        intro he
        exact hops (he ▸ List.mem_cons_self _ rest)
      exact Nat.le_trans (ih hrest (entriesAdd entries x))
        (count_drop_entriesAdd_le x h hxh entries i)
    | deleteOp x =>
      exact Nat.le_trans (ih hrest (entriesDelete entries x))
        (count_drop_entriesDelete_le x h entries i)

theorem mem_drop_entriesDelete {x h : Nat} (hne : x ≠ h)
    {entries : List (Option Nat)} {i : Nat}
    (hm : some h ∈ entries.drop i) :
    some h ∈ (entriesDelete entries x).drop i := by
  rw [entriesDelete, ← List.map_drop]
  refine List.mem_map.2 ⟨some h, hm, ?_⟩
  simp [Ne.symm hne]

theorem mem_drop_entriesAdd {x h : Nat} {entries : List (Option Nat)}
    {i : Nat} (hm : some h ∈ entries.drop i) :
    some h ∈ (entriesAdd entries x).drop i := by
  rw [entriesAdd]
  by_cases hmem : some x ∈ entries
  · rwa [if_pos hmem]
  · rw [if_neg hmem, List.drop_append_eq_append_drop]
    exact List.mem_append_left _ hm

theorem mem_drop_runSetOps {h : Nat} {ops : List SetOp}
    (hops : SetOp.deleteOp h ∉ ops) {entries : List (Option Nat)} {i : Nat}
    (hm : some h ∈ entries.drop i) :
    some h ∈ (runSetOps ops entries).drop i := by
  induction ops generalizing entries with
  | nil => exact hm
  | cons op rest ih =>
    have hrest : SetOp.deleteOp h ∉ rest :=
      fun hmem => hops (List.mem_cons_of_mem op hmem)
    cases op with
    | addOp x => exact ih hrest (mem_drop_entriesAdd hm)
    | deleteOp x =>
      have hxh : x ≠ h := by
        intro he
        exact hops (he ▸ List.mem_cons_self _ rest)
      exact ih hrest (mem_drop_entriesDelete hxh hm)

theorem forEachLoop_count_zero (effects : Nat → List SetOp) (h : Nat)
    (hadd : ∀ x, SetOp.addOp h ∉ effects x) :
    ∀ (fuel i : Nat) (entries : List (Option Nat)),
      (entries.drop i).count (some h) = 0 →
      (forEachLoop effects fuel i entries).1.count h = 0 := by
  intro fuel
  induction fuel with
  | zero =>
    intro i entries _
    rfl
  | succ f ih =>
    intro i entries hcnt
    by_cases hlt : i < entries.length
    · have hdrop : entries.drop i = entries[i] :: entries.drop (i + 1) :=
        List.drop_eq_getElem_cons hlt
      have hgetd : entries.getD i none = entries[i] := by
        simp [List.getD_eq_getElem?_getD, List.getElem?_eq_getElem hlt]
      cases hei : entries[i] with
      | none =>
        rw [forEachLoop_skip effects f i entries hlt (by rw [hgetd, hei])]
        apply ih
        rw [hdrop, hei, List.count_cons] at hcnt
        have hb : ((none : Option Nat) == some h) = false := rfl
        rw [hb] at hcnt
        simpa using hcnt
      | some x =>
        rw [forEachLoop_visit effects f i entries x hlt (by rw [hgetd, hei])]
        rw [hdrop, hei, List.count_cons] at hcnt
        have hxh : x ≠ h := by
          intro he
          subst he
          have hb : ((some x : Option Nat) == some x) = true := by simp
          rw [hb] at hcnt
          simp at hcnt
        have hb : ((some x : Option Nat) == some h) = false := by simp [hxh]
        rw [hb] at hcnt
        simp at hcnt
        have hc2 : ((runSetOps (effects x) entries).drop (i + 1)).count (some h)
            = 0 :=
          Nat.le_zero.mp
            (hcnt ▸ count_drop_runSetOps_le h (effects x) (hadd x) entries (i + 1))
        rw [List.count_cons]
        have hbx : (x == h) = false := by simp [hxh]
        rw [hbx, ih (i + 1) _ hc2]
        simp
    · rw [forEachLoop_stop effects f i entries hlt]
      rfl

theorem forEachLoop_count_le (effects : Nat → List SetOp) (h : Nat)
    (hadd : ∀ x, SetOp.addOp h ∉ effects x) :
    ∀ (fuel i : Nat) (entries : List (Option Nat)),
      (entries.drop i).count (some h) ≤ 1 →
      (forEachLoop effects fuel i entries).1.count h ≤ 1 := by
  intro fuel
  induction fuel with
  | zero =>
    intro i entries _
    exact Nat.le_of_lt Nat.one_pos |>.trans (Nat.le_refl 1) |>.trans
      (Nat.le_refl 1)
  | succ f ih =>
    intro i entries hcnt
    by_cases hlt : i < entries.length
    · have hdrop : entries.drop i = entries[i] :: entries.drop (i + 1) :=
        List.drop_eq_getElem_cons hlt
      have hgetd : entries.getD i none = entries[i] := by
        simp [List.getD_eq_getElem?_getD, List.getElem?_eq_getElem hlt]
      cases hei : entries[i] with
      | none =>
        rw [forEachLoop_skip effects f i entries hlt (by rw [hgetd, hei])]
        apply ih
        rw [hdrop, hei, List.count_cons] at hcnt
        have hb : ((none : Option Nat) == some h) = false := rfl
        rw [hb] at hcnt
        simpa using hcnt
      | some x =>
        rw [forEachLoop_visit effects f i entries x hlt (by rw [hgetd, hei])]
        rw [hdrop, hei, List.count_cons] at hcnt
        rw [List.count_cons]
        by_cases hxh : x = h
        · subst hxh
          have hb : ((some x : Option Nat) == some x) = true := by simp
          rw [hb] at hcnt
          simp at hcnt
          have hc1 : (entries.drop (i + 1)).count (some x) = 0 := by omega
          have hc2 : ((runSetOps (effects x) entries).drop (i + 1)).count
              (some x) = 0 :=
            Nat.le_zero.mp (hc1 ▸
              count_drop_runSetOps_le x (effects x) (hadd x) entries (i + 1))
          rw [forEachLoop_count_zero effects x hadd f (i + 1) _ hc2]
          simp
        · have hb : ((some x : Option Nat) == some h) = false := by simp [hxh]
          rw [hb] at hcnt
          simp at hcnt
          have hbx : (x == h) = false := by simp [hxh]
          rw [hbx]
          have hrec := ih (i + 1) (runSetOps (effects x) entries)
            (Nat.le_trans
              (count_drop_runSetOps_le h (effects x) (hadd x) entries (i + 1))
              hcnt)
          simpa using hrec
    · rw [forEachLoop_stop effects f i entries hlt]
      exact Nat.zero_le 1

theorem forEachLoop_mem (effects : Nat → List SetOp) (h : Nat)
    (hdel : ∀ x, SetOp.deleteOp h ∉ effects x) :
    ∀ (fuel i : Nat) (entries : List (Option Nat)),
      some h ∈ entries.drop i →
      (forEachLoop effects fuel i entries).2 = true →
      h ∈ (forEachLoop effects fuel i entries).1 := by
  intro fuel
  induction fuel with
  | zero =>
    intro i entries _ hdone
    exact absurd hdone (by simp [forEachLoop])
  | succ f ih =>
    intro i entries hmem hdone
    by_cases hlt : i < entries.length
    · have hdrop : entries.drop i = entries[i] :: entries.drop (i + 1) :=
        List.drop_eq_getElem_cons hlt
      have hgetd : entries.getD i none = entries[i] := by
        simp [List.getD_eq_getElem?_getD, List.getElem?_eq_getElem hlt]
      cases hei : entries[i] with
      | none =>
        rw [forEachLoop_skip effects f i entries hlt (by rw [hgetd, hei])]
          at hdone ⊢
        apply ih (i + 1) entries ?_ hdone
        rw [hdrop, hei] at hmem
        rcases List.mem_cons.1 hmem with habs | hmem'
        · exact absurd habs (by simp)
        · exact hmem'
      | some x =>
        rw [forEachLoop_visit effects f i entries x hlt (by rw [hgetd, hei])]
          at hdone ⊢
        by_cases hxh : x = h
        · subst hxh
          exact List.mem_cons_self x _
        · refine List.mem_cons_of_mem x (ih (i + 1) _ ?_ hdone)
          rw [hdrop, hei] at hmem
          rcases List.mem_cons.1 hmem with habs | hmem'
          · exact absurd habs (by simp [Ne.symm hxh])
          · exact mem_drop_runSetOps (hdel x) hmem'
    · have hnil : entries.drop i = [] :=
        List.drop_eq_nil_of_le (Nat.le_of_not_lt hlt)
      rw [hnil] at hmem
      exact absurd hmem (List.not_mem_nil _)

theorem count_map_some (s : List Nat) (h : Nat) :
    (s.map some).count (some h) = s.count h := by
  induction s with
  | nil => rfl
  | cons a t ih =>
    rw [List.map_cons, List.count_cons, List.count_cons, ih]
    by_cases hah : a = h
    · simp [hah]
    · simp [hah]

/-- Counterexample to claim C5 as stated: the dispatch iterates the live
`Set`, it does not snapshot it. With handler set `[1, 0]`, handler 1
unsubscribing itself when invoked and handler 0 re-registering it, the
walk completes with invocation list `[1, 0, 1]`: handler 1 unsubscribed
mid-delivery (its final invocation deletes it again, so the accumulated
mutations leave it unsubscribed at the end of the delivery) and yet is
invoked twice — a deleted-then-re-added `Set` entry is appended and
visited again (ECMA-262 SetForEach). -/
theorem dispatch_mutation_counterexample :
    SetOp.deleteOp 1 ∈
        (fun y => if y = 1 then [SetOp.deleteOp 1] else [SetOp.addOp 1]) 1 ∧
      (forEachMut (fun y => if y = 1 then [SetOp.deleteOp 1]
          else [SetOp.addOp 1]) 10 [1, 0]).2 = true ∧
      (forEachMut (fun y => if y = 1 then [SetOp.deleteOp 1]
          else [SetOp.addOp 1]) 10 [1, 0]).1 = [1, 0, 1] ∧
      1 < (forEachMut (fun y => if y = 1 then [SetOp.deleteOp 1]
          else [SetOp.addOp 1]) 10 [1, 0]).1.count 1 ∧
      some 1 ∉ runSetOps [SetOp.deleteOp 1] (runSetOps [SetOp.addOp 1]
        (runSetOps [SetOp.deleteOp 1] ([1, 0].map some))) := by
  refine ⟨by decide, by decide, by decide, by decide, by decide⟩

/-- Claim C5 (amended): subscribe/unsubscribe from within a dispatched
handler is tolerated by the live `Set.forEach` iteration, except that a
handler unsubscribed and then re-registered during the same delivery may
be visited again (the counterexample above). For a duplicate-free handler
set: (1) a handler that no effect (re-)registers during the delivery — in
particular a handler that unsubscribed mid-delivery and stayed
unsubscribed — is invoked at most once; (2) a handler subscribed before
the dispatch began and never unsubscribed during it is not skipped,
whenever the walk runs to completion. -/
theorem dispatch_mutation_safe (effects : Nat → List SetOp) (s : List Nat)
    (fuel : Nat) (h : Nat) (hs : s.Nodup) :
    ((∀ x, SetOp.addOp h ∉ effects x) →
      (forEachMut effects fuel s).1.count h ≤ 1) ∧
    (h ∈ s → (∀ x, SetOp.deleteOp h ∉ effects x) →
      (forEachMut effects fuel s).2 = true →
      h ∈ (forEachMut effects fuel s).1) := by
  unfold forEachMut
  constructor
  · intro hadd
    apply forEachLoop_count_le effects h hadd fuel 0
    rw [List.drop_zero, count_map_some]
    exact List.nodup_iff_count_le_one.1 hs h
  · intro hmem hdel hdone
    apply forEachLoop_mem effects h hdel fuel 0 _ _ hdone
    rw [List.drop_zero]
    exact List.mem_map_of_mem some hmem

/-- Witness for the amended C5: handlers 0, 1, 2 with handler 0
unsubscribing handler 2 mid-delivery. Handler 2 (unsubscribed and never
re-registered) is invoked at most once, and handler 1 (subscribed before
the dispatch, never unsubscribed) is invoked at most once and not
skipped; every hypothesis of both conjuncts is discharged concretely. -/
theorem dispatch_mutation_safe_witness :
    ([0, 1, 2] : List Nat).Nodup ∧
      (forEachMut (fun y => if y = 0 then [SetOp.deleteOp 2] else [])
          10 [0, 1, 2]).1.count 2 ≤ 1 ∧
      (forEachMut (fun y => if y = 0 then [SetOp.deleteOp 2] else [])
          10 [0, 1, 2]).1.count 1 ≤ 1 ∧
      1 ∈ (forEachMut (fun y => if y = 0 then [SetOp.deleteOp 2] else [])
          10 [0, 1, 2]).1 :=
  ⟨by decide,
    (dispatch_mutation_safe
        (fun y => if y = 0 then [SetOp.deleteOp 2] else [])
        [0, 1, 2] 10 2 (by decide)).1
      (by intro x; by_cases hx : x = 0 <;> simp [hx]),
    (dispatch_mutation_safe
        (fun y => if y = 0 then [SetOp.deleteOp 2] else [])
        [0, 1, 2] 10 1 (by decide)).1
      (by intro x; by_cases hx : x = 0 <;> simp [hx]),
    (dispatch_mutation_safe
        (fun y => if y = 0 then [SetOp.deleteOp 2] else [])
        [0, 1, 2] 10 1 (by decide)).2
      (by decide)
      (by intro x; by_cases hx : x = 0 <;> simp [hx])
      (by decide)⟩

/-- Module lifecycle states (spec §3). -/
inductive MState
  | Registered
  | Starting
  | Running
  | Stopping
  | Stopped
  | Failed
  deriving DecidableEq, Repr

/-- Point update of a state map. -/
def update (st : Nat → MState) (m : Nat) (s : MState) : Nat → MState :=
  fun x => if x = m then s else st x

/-- Modelled from the spec: rollback of a failed `startAll` — the modules
already started (given most-recently-started first) are stopped in that
order, i.e. in reverse start order. -/
def rollback : List Nat → (Nat → MState) → (Nat → MState)
  | [], st => st
  | m :: rest, st => rollback rest (update st m .Stopped)

/-- Outcome of `startAll`: final states, the modules started during the
call (chronological), the stop calls issued by rollback (chronological),
and success. -/
structure StartAllResult where
  states : Nat → MState
  starts : List Nat
  stops : List Nat
  ok : Bool

/-- Modelled from the spec: the loop of `startAll` (Module Manager,
`src/core/module_manager.py`, not among the provided sources; spec §4.3).
`startOk m` says whether module `m`'s `start` succeeds, `startedRev`
accumulates the modules started so far (most recent first). On a start
failure the failing module is marked `Failed`, every module started during
this call is stopped in reverse start order, and the call reports
failure. -/
def startAllAux (startOk : Nat → Bool) :
    List Nat → List Nat → (Nat → MState) → StartAllResult
  | [], startedRev, st => ⟨st, startedRev.reverse, [], true⟩
  | m :: rest, startedRev, st =>
    if startOk m then
      startAllAux startOk rest (m :: startedRev) (update st m .Running)
    else
      ⟨rollback startedRev (update st m .Failed), startedRev.reverse,
        startedRev, false⟩

/-- Modelled from the spec: `startAll` over the topologically sorted start
order `order`, from initial states `st`. -/
def startAll (startOk : Nat → Bool) (order : List Nat) (st : Nat → MState) :
    StartAllResult :=
  startAllAux startOk order [] st

theorem rollback_eq (L : List Nat) (st : Nat → MState) (m : Nat) :
    rollback L st m = if m ∈ L then MState.Stopped else st m := by
  induction L generalizing st with
  | nil => simp [rollback]
  | cons a rest ih =>
    rw [rollback, ih]
    by_cases hmr : m ∈ rest
    · simp [hmr]
    · by_cases hma : m = a
      · simp [hmr, hma, update]
      · simp [hmr, hma, update]

theorem startAllAux_fail (startOk : Nat → Bool) (order : List Nat) :
    ∀ (startedRev : List Nat) (st : Nat → MState),
      (∀ m, m ∉ startedRev → st m ≠ MState.Running) →
      (startAllAux startOk order startedRev st).ok = false →
      (∀ m, (startAllAux startOk order startedRev st).states m
          ≠ MState.Running) ∧
        (startAllAux startOk order startedRev st).stops =
          (startAllAux startOk order startedRev st).starts.reverse := by
  induction order with
  | nil =>
    intro startedRev st _ hfail
    exact absurd hfail (by simp [startAllAux])
  | cons m rest ih =>
    intro startedRev st hinv hfail
    by_cases hok : startOk m
    · rw [startAllAux, if_pos hok] at hfail ⊢
      apply ih (m :: startedRev) (update st m .Running) ?_ hfail
      intro x hx
      have hxm : x ≠ m := fun he => hx (by
        rw [he]
        exact List.mem_cons_self m startedRev)
      rw [update, if_neg hxm]
      exact hinv x (fun hmem => hx (List.mem_cons_of_mem m hmem))
    · rw [startAllAux, if_neg hok] at hfail ⊢
      refine ⟨?_, by simp⟩
      intro x
      show rollback startedRev (update st m MState.Failed) x ≠ MState.Running
      rw [rollback_eq]
      by_cases hxs : x ∈ startedRev
      · simp [hxs]
      · rw [if_neg hxs, update]
        by_cases hxm : x = m
        · simp [hxm]
        · rw [if_neg hxm]
          exact hinv x hxs

/-- Claim C8 (spec-modelled): startup is all-or-nothing — from an initial
state with no module `Running`, if `startAll` reports failure then no
module is left `Running`, and the rollback stop calls are exactly the
modules started during the call, in reverse start order. -/
theorem startAll_rollback (startOk : Nat → Bool) (order : List Nat)
    (st : Nat → MState) (hinit : ∀ m, st m ≠ MState.Running)
    (hfail : (startAll startOk order st).ok = false) :
    (∀ m, (startAll startOk order st).states m ≠ MState.Running) ∧
      (startAll startOk order st).stops =
        (startAll startOk order st).starts.reverse :=
  startAllAux_fail startOk order [] st (fun m _ => hinit m) hfail

/-- Witness for C8: module 0 ("memory") starts, module 1 ("brain") fails
to start; `startAll` fails, module 0 is rolled back to `Stopped` and
module 1 is `Failed`. -/
theorem startAll_rollback_witness :
    (∀ m : Nat, (fun _ => MState.Registered) m ≠ MState.Running) ∧
      (startAll (fun m => m == 0) [0, 1] (fun _ => MState.Registered)).ok
        = false ∧
      (∀ m, (startAll (fun m => m == 0) [0, 1]
          (fun _ => MState.Registered)).states m ≠ MState.Running) ∧
      (startAll (fun m => m == 0) [0, 1]
          (fun _ => MState.Registered)).stops =
        (startAll (fun m => m == 0) [0, 1]
          (fun _ => MState.Registered)).starts.reverse ∧
      (startAll (fun m => m == 0) [0, 1]
          (fun _ => MState.Registered)).states 0 = MState.Stopped ∧
      (startAll (fun m => m == 0) [0, 1]
          (fun _ => MState.Registered)).states 1 = MState.Failed :=
  ⟨fun m => by simp, by decide,
    (startAll_rollback (fun m => m == 0) [0, 1] (fun _ => MState.Registered)
      (fun m => by simp) (by decide)).1,
    (startAll_rollback (fun m => m == 0) [0, 1] (fun _ => MState.Registered)
      (fun m => by simp) (by decide)).2,
    by decide, by decide⟩
